import Mathlib

/-!
Shallow embedding of the vanity transaction-hash miner (src/src/main.rs).

The program searches, in parallel, for EIP-1559 fee parameters that make a
signed transaction's hash begin with a target hex string.  This file models:

* the 256-bit unsigned arithmetic of the `U256` type (checked `+`/`*`, which
  panic on overflow, and `saturating_add`), as `Nat` with explicit bounds;
* the hex rendering and target-string matching in `process_batch`;
* the per-worker base-fee partitioning and batch generation in `main`;
* `process_batch` itself (sequential, interference-free semantics; the
  concurrent claim protocol is modelled separately as a transition system);
* the tokio mpsc receive semantics the orchestrator relies on;
* RLP encoding, Keccak-256 and `get_contract_address`.

Machine integers are `Nat` with explicit `% 2^w` or checked-overflow
`Option`; byte strings are `List Nat` (each element intended `< 256`);
Rust `&str` values are `List Char`.
-/

namespace VanityTx

/-! ## U256 arithmetic (primitive-types `U256`) -/

/-- Modulus of the 256-bit unsigned integer type. -/
def U256MOD : Nat := 2 ^ 256

/-- Largest `U256` value (`U256::MAX`). -/
def U256MAX : Nat := U256MOD - 1

/-- Checked 256-bit addition: `a + b` on `U256` panics on overflow, modelled
as `none`. -/
def addU256 (a b : Nat) : Option Nat :=
  if a + b < U256MOD then some (a + b) else none

/-- Checked 256-bit multiplication: `a * b` on `U256` panics on overflow,
modelled as `none`. -/
def mulU256 (a b : Nat) : Option Nat :=
  if a * b < U256MOD then some (a * b) else none

/-- The source's `U256::saturating_add`. -/
def satAddU256 (a b : Nat) : Nat :=
  min (a + b) U256MAX

/-! ## Constants from the source (main.rs lines 18-21, 44-45) -/

def BATCH_SIZE : Nat := 1000
def DEFAULT_THREAD_COUNT : Nat := 8
def THREAD_OFFSET_SPACING : Nat := 100000000
def BASE_FEE_START : Nat := 18000000
def PRIORITY_FEE : Nat := 1250000

/-- Worker-pool size, `num_cpus::get().min(DEFAULT_THREAD_COUNT)`
(main.rs line 57), as a function of the CPU count. -/
def threadCount (numCpus : Nat) : Nat :=
  min numCpus DEFAULT_THREAD_COUNT

/-! ## Hex rendering and target matching (process_batch lines 155-156)

Rust strings are modelled as `List Char`; `hex::encode` produces lowercase
hex digits, and the rendered string is `"0x"` followed by them.  Rust's
`str::starts_with` is `List.isPrefixOf`. -/

/-- The sixteen characters `hex::encode` can emit, in value order. -/
def lowercaseHexDigits : List Char :=
  "0123456789abcdef".toList

/-- Lowercase hex digit for a nibble, as produced by `hex::encode`. -/
def hexDigit (n : Nat) : Char :=
  lowercaseHexDigits.getD n '?'

/-- One byte rendered as two lowercase hex chars (`hex::encode` per byte:
high nibble then low nibble). -/
def hexByte (b : Nat) : List Char :=
  [hexDigit (b / 16), hexDigit (b % 16)]

/-- The source's `hex::encode(tx_hash)`. -/
def hexEncode (bytes : List Nat) : List Char :=
  bytes.flatMap hexByte

/-- The source's `format!("0x\x7b\x7d", hex::encode(tx_hash))`
(process_batch line 155). -/
def txHashHex (h : List Nat) : List Char :=
  '0' :: 'x' :: hexEncode h

/-- The source's `tx_hash_hex.starts_with(hash_prefix)`
(process_batch line 156); `tgt` is the target string, already lowercased by
`main` (line 31). -/
def matchesTarget (tgt : List Char) (h : List Nat) : Bool :=
  tgt.isPrefixOf (txHashHex h)


/-! ## Fee-space partitioning (main.rs lines 74-75) -/

/-- Modulus of the 64-bit unsigned integer type. -/
def U64MOD : Nat := 2 ^ 64

/-- Worker `i`'s base-fee offset, `i as u64 * THREAD_OFFSET_SPACING`
(main.rs line 74); `u64` multiplication wraps modulo `2^64`. -/
def base_fee_offset (i : Nat) : Nat :=
  (i * THREAD_OFFSET_SPACING) % U64MOD

/-- Worker `i`'s starting base fee, `base_fee_start + base_fee_offset`
(main.rs line 75).  This `U256` addition can never overflow: both operands
are below `2^64`, so the checked sum is total here. -/
def workerStart (i : Nat) : Nat :=
  BASE_FEE_START + base_fee_offset i

/-- The `k`-th base-fee value worker `i` tests: the worker's cursor starts at
`workerStart i` and advances by `saturating_add(U256::one())` once per
candidate (main.rs line 86), across batch boundaries. -/
def workerBaseFee (i k : Nat) : Nat :=
  (fun c => satAddU256 c 1)^[k] (workerStart i)

/-- The fee pair signed for base-fee value `b`:
`(max_fee_per_gas, max_priority_fee_per_gas)` (main.rs lines 83-84).  In the
partitioning regime the checked `U256` sum `b + PRIORITY_FEE` cannot
overflow, so it is total here. -/
def feePair (b : Nat) : Nat × Nat :=
  (b + PRIORITY_FEE, PRIORITY_FEE)

/-! ## Transaction requests and batch generation (main.rs lines 47-53, 79-87) -/

/-- The `Eip1559TransactionRequest` fields this program uses.  The template
built in `main` (lines 48-53) sets `toAddr := none` (contract creation),
`callData`, `nonce`, `gasLimit` and `chainId`, and leaves the fee fields
`none`; the batch generator fills the fee fields. -/
structure Eip1559Request where
  toAddr : Option (List Nat)
  callData : List Nat
  nonce : Nat
  gasLimit : Nat
  chainId : Nat
  value : Option Nat
  maxFee : Option Nat
  maxPrio : Option Nat
deriving DecidableEq

/-- A Rust panic raised by checked `U256` arithmetic. -/
inductive Panic where
  | overflow
deriving DecidableEq

/-- Candidate built from the template for one cursor value (main.rs lines
82-84): `max_fee_per_gas := mf`, `max_priority_fee_per_gas := PRIORITY_FEE`. -/
def setFees (tmpl : Eip1559Request) (mf : Nat) : Eip1559Request :=
  { tmpl with maxFee := some mf, maxPrio := some PRIORITY_FEE }

/-- The batch-filling loop of main.rs lines 81-87, with `fuel` iterations
left, current cursor `cursor`, and candidates accumulated so far (in reverse
push order).  Each iteration computes `base_fee + priority_fee` with the
panicking `U256` addition, pushes the candidate, and advances the cursor with
`saturating_add(U256::one())`. -/
def genBatchAux (tmpl : Eip1559Request) :
    Nat → Nat → List Eip1559Request → Except Panic (List Eip1559Request × Nat)
  | 0, cursor, acc => .ok (acc.reverse, cursor)
  | fuel + 1, cursor, acc =>
    (addU256 cursor PRIORITY_FEE).elim (.error .overflow) fun mf =>
      genBatchAux tmpl fuel (satAddU256 cursor 1) (setFees tmpl mf :: acc)

/-- One batch-generation step (main.rs lines 79-87): from cursor `c`, produce
the batch and the new cursor, or a panic. -/
def genBatch (tmpl : Eip1559Request) (c : Nat) :
    Except Panic (List Eip1559Request × Nat) :=
  genBatchAux tmpl BATCH_SIZE c []

/-- The transaction template of the spec's end-to-end scenario: contract
creation, empty calldata, nonce 5, gas limit 21000, chain id 1. -/
def sampleTemplate : Eip1559Request :=
  { toAddr := none, callData := [], nonce := 5, gasLimit := 21000,
    chainId := 1, value := none, maxFee := none, maxPrio := none }

/-! ## Keccak-256 (the `tiny_keccak` hash used by `get_contract_address`,
and by the ethers library for typed-transaction hashing)

State is 25 lanes of 64 bits, lane `(x, y)` at index `x + 5*y`; byte strings
are absorbed at rate 136 with the original Keccak `0x01 … 0x80` padding. -/

/-- Mask of the 64-bit lane width. -/
def MASK64 : Nat := 2 ^ 64 - 1

/-- Left rotation of a 64-bit lane, `n ≤ 63`. -/
def rotl64 (x n : Nat) : Nat :=
  ((x <<< n) ||| (x >>> (64 - n))) &&& MASK64

/-- Rho-step rotation offsets, indexed by `x + 5*y`, generated the standard
way: along the `(x, y) ↦ (y, (2x+3y) mod 5)` walk that starts at `(1, 0)`,
the `t`-th visited lane gets the triangular number `(t+1)(t+2)/2 mod 64`.
This yields the usual table 0, 1, 62, 28, 27, 36, 44, 6, 55, 20, 3, 10, 43,
25, 39, 41, 45, 15, 21, 8, 18, 2, 61, 56, 14. -/
def keccakRotOff : List Nat :=
  ((List.range 24).foldl
    (fun st t =>
      ((st.1.2, (2 * st.1.1 + 3 * st.1.2) % 5),
        st.2.set (st.1.1 + 5 * st.1.2) (((t + 1) * (t + 2) / 2) % 64)))
    ((1, 0), List.replicate 25 0)).2

/-- Iota-step round constants for the 24 rounds of Keccak-f[1600]. -/
def keccakRC : List Nat :=
  [ 1, 32898, 9223372036854808714,
    9223372039002292224, 32907, 2147483649,
    9223372039002292353, 9223372036854808585, 138,
    136, 2147516425, 2147483658,
    2147516555, 9223372036854775947, 9223372036854808713,
    9223372036854808579, 9223372036854808578, 9223372036854775936,
    32778, 9223372039002259466, 9223372039002292353,
    9223372036854808704, 2147483649, 9223372039002292232 ]

/-- Lane read with out-of-range default 0. -/
def getLane (s : List Nat) (i : Nat) : Nat := s.getD i 0

/-- Theta step of Keccak-f. -/
def thetaStep (s : List Nat) : List Nat :=
  let c := fun x => getLane s x ^^^ getLane s (x + 5) ^^^ getLane s (x + 10) ^^^
    getLane s (x + 15) ^^^ getLane s (x + 20)
  let d := fun x => c ((x + 4) % 5) ^^^ rotl64 (c ((x + 1) % 5)) 1
  (List.range 25).map fun i => getLane s i ^^^ d (i % 5)

/-- Combined rho and pi steps: lane `(X, Y)` of the output is lane
`((X + 3Y) % 5, X)` of the input, rotated by its offset. -/
def rhoPiStep (s : List Nat) : List Nat :=
  (List.range 25).map fun j =>
    let x := (j % 5 + 3 * (j / 5)) % 5
    let y := j % 5
    rotl64 (getLane s (x + 5 * y)) (keccakRotOff.getD (x + 5 * y) 0)

/-- Chi step of Keccak-f. -/
def chiStep (s : List Nat) : List Nat :=
  (List.range 25).map fun j =>
    let x := j % 5
    let y := j / 5
    getLane s j ^^^
      (((getLane s ((x + 1) % 5 + 5 * y)) ^^^ MASK64) &&& getLane s ((x + 2) % 5 + 5 * y))

/-- Iota step: XOR the round constant into lane 0. -/
def iotaStep (rc : Nat) (s : List Nat) : List Nat :=
  match s with
  | [] => []
  | a :: rest => (a ^^^ rc) :: rest

/-- The full 24-round Keccak-f[1600] permutation. -/
def keccakF (s : List Nat) : List Nat :=
  keccakRC.foldl (fun st rc => iotaStep rc (chiStep (rhoPiStep (thetaStep st)))) s

/-- Absorption rate in bytes for 256-bit output. -/
def KECCAK_RATE : Nat := 136

/-- Original Keccak multi-rate padding with domain byte `0x01`. -/
def padKeccak (msg : List Nat) : List Nat :=
  let rem := KECCAK_RATE - msg.length % KECCAK_RATE
  if rem = 1 then msg ++ [0x81]
  else msg ++ 0x01 :: (List.replicate (rem - 2) 0 ++ [0x80])

/-- Eight little-endian bytes into one 64-bit lane. -/
def bytesToLane (bs : List Nat) : Nat :=
  bs.foldr (fun b acc => acc * 256 + b % 256) 0

/-- XOR one rate-sized block into the first 17 lanes of the state. -/
def absorbBlock (s block : List Nat) : List Nat :=
  (List.range 25).map fun i =>
    if i < 17 then getLane s i ^^^ bytesToLane ((block.drop (8 * i)).take 8)
    else getLane s i

/-- Split a padded message into rate-sized blocks; `fuel` bounds the
recursion and any value of at least `msg.length` is exact. -/
def toBlocks : Nat → List Nat → List (List Nat)
  | 0, _ => []
  | _ + 1, [] => []
  | fuel + 1, msg => msg.take KECCAK_RATE :: toBlocks fuel (msg.drop KECCAK_RATE)

/-- One 64-bit lane as eight little-endian bytes. -/
def laneToBytes (x : Nat) : List Nat :=
  (List.range 8).map fun i => (x >>> (8 * i)) &&& 255

/-- Keccak-256 of a byte string: pad, absorb every block, and squeeze the
first 32 bytes of the state. -/
def keccak256 (msg : List Nat) : List Nat :=
  let padded := padKeccak msg
  let final := (toBlocks padded.length padded).foldl
    (fun st b => keccakF (absorbBlock st b)) (List.replicate 25 0)
  (List.range 4).flatMap fun i => laneToBytes (getLane final i)

/-! ## RLP encoding (the `rlp` crate used by `get_contract_address`) -/

/-- Minimal big-endian byte representation of a number (empty for 0), as the
`rlp` crate encodes `U256`; `fuel` bounds the recursion and any value of at
least `n` is exact. -/
def natToBE : Nat → Nat → List Nat
  | 0, _ => []
  | _ + 1, 0 => []
  | fuel + 1, n => natToBE fuel (n / 256) ++ [n % 256]

/-- RLP encoding of a byte string: a single byte below `0x80` stands alone;
otherwise a short (`0x80 + len`) or long (`0xb7 + lenOfLen`) header. -/
def rlpEncodeBytes (bs : List Nat) : List Nat :=
  match bs with
  | [b] => if b < 0x80 then [b] else [0x81, b]
  | _ =>
    if bs.length ≤ 55 then (0x80 + bs.length) :: bs
    else
      let lenBytes := natToBE bs.length bs.length
      (0xb7 + lenBytes.length) :: (lenBytes ++ bs)

/-- RLP encoding of an unsigned number: its minimal big-endian bytes as a
string. -/
def rlpEncodeNat (n : Nat) : List Nat :=
  rlpEncodeBytes (natToBE n n)

/-- RLP list header for a payload of the given length: short `0xc0 + len` or
long `0xf7 + lenOfLen` form. -/
def rlpListHeader (payloadLen : Nat) : List Nat :=
  if payloadLen ≤ 55 then [0xc0 + payloadLen]
  else
    let lenBytes := natToBE payloadLen payloadLen
    (0xf7 + lenBytes.length) :: lenBytes

/-- RLP encoding of a list given the concatenation of its encoded items. -/
def rlpEncodeList (payload : List Nat) : List Nat :=
  rlpListHeader payload.length ++ payload

/-! ## The RlpStream builder (get_contract_address, main.rs lines 185-198) -/

/-- State of an `RlpStream` that is building one list: the item count
declared by `new_list` and the encoded items appended so far. -/
structure RlpStream where
  listSize : Nat
  payload : List Nat
deriving DecidableEq

/-- The builder constructor `RlpStream::new_list(n)`. -/
def RlpStream.new_list (n : Nat) : RlpStream :=
  { listSize := n, payload := [] }

/-- The call `stream.append(&sender)`: an `Address` RLP-encodes as its 20-byte
string. -/
def RlpStream.appendAddress (st : RlpStream) (addr : List Nat) : RlpStream :=
  { st with payload := st.payload ++ rlpEncodeBytes addr }

/-- The call `stream.append(&nonce)`: a `U256` RLP-encodes as its minimal big-endian
bytes. -/
def RlpStream.appendU256 (st : RlpStream) (n : Nat) : RlpStream :=
  { st with payload := st.payload ++ rlpEncodeNat n }

/-- The call `stream.out()`: the accumulated payload wrapped in its list header. -/
def RlpStream.out (st : RlpStream) : List Nat :=
  rlpListHeader st.payload.length ++ st.payload

/-- The function `get_contract_address` (main.rs lines 185-198): RLP-encode the pair
`(sender, nonce)` through an `RlpStream`, Keccak-256 the bytes, and keep
`hash[12..]`, the low-order 20 bytes. -/
def get_contract_address (sender : List Nat) (nonce : Nat) : List Nat :=
  let stream := ((RlpStream.new_list 2).appendAddress sender).appendU256 nonce
  let hash := keccak256 stream.out
  hash.drop 12

/-- The spec's description of contract-address prediction, stated directly:
the standard structured (RLP) encoding of the two-element list
`(sender, nonce)`, hashed with Keccak-256, keeping the low-order 20 bytes of
the 32-byte digest. -/
def contractAddressSpec (sender : List Nat) (nonce : Nat) : List Nat :=
  (keccak256 (rlpEncodeList (rlpEncodeBytes sender ++ rlpEncodeNat nonce))).drop 12

/-- Reference sender address `0x6ac7ea33f8831ea9dcc53393aaa88b25a785dbf0`,
whose nonce-0 contract address is the canonical cross-implementation test
vector `0xcd234a471b72ba2f1ccf0a70fcaba648a5eecd8d`. -/
def referenceSender : List Nat :=
  [0x6a, 0xc7, 0xea, 0x33, 0xf8, 0x83, 0x1e, 0xa9, 0xdc, 0xc5,
   0x33, 0x93, 0xaa, 0xa8, 0x8b, 0x25, 0xa7, 0x85, 0xdb, 0xf0]

/-! ## Transaction signing (encode_and_sign_eip1559, main.rs lines 168-183)

The ECDSA signature itself is produced by the ethers `LocalWallet`, a
library outside this repository.  EIP-1559 signing is deterministic
(RFC 6979), so a wallet is modelled as a function from the transaction
request to a signature result, and the claims quantify over all wallets.
The wire encoding and the hash are concrete: ethers encodes the signed
typed transaction as `0x02 ‖ rlp([...])` and defines the transaction hash
as the Keccak-256 of exactly those bytes. -/

/-- An ECDSA signature as ethers carries it: `r`, `s` and the y-parity
bit `v`. -/
structure Signature where
  r : Nat
  s : Nat
  v : Nat
deriving DecidableEq

/-- A `wallet.sign_transaction` failure. -/
inductive SignError where
  | failure
deriving DecidableEq

/-- A wallet: a deterministic signing function. -/
def Wallet : Type := Eip1559Request → Except SignError Signature

/-- RLP payload of a signed EIP-1559 transaction (ethers `rlp_signed`):
chain id, nonce, priority fee, max fee, gas, to (empty string for contract
creation), value, calldata, empty access list, then y-parity, r, s. -/
def rlpSignedPayload (tx : Eip1559Request) (sig : Signature) : List Nat :=
  rlpEncodeNat tx.chainId ++ rlpEncodeNat tx.nonce ++
    rlpEncodeNat (tx.maxPrio.getD 0) ++ rlpEncodeNat (tx.maxFee.getD 0) ++
    rlpEncodeNat tx.gasLimit ++
    (tx.toAddr.elim (rlpEncodeBytes []) rlpEncodeBytes) ++
    rlpEncodeNat (tx.value.getD 0) ++ rlpEncodeBytes tx.callData ++
    rlpEncodeList [] ++
    rlpEncodeNat sig.v ++ rlpEncodeNat sig.r ++ rlpEncodeNat sig.s

/-- Wire bytes of the signed typed transaction: the type byte `0x02`
followed by the RLP list. -/
def rlpSigned (tx : Eip1559Request) (sig : Signature) : List Nat :=
  0x02 :: rlpEncodeList (rlpSignedPayload tx sig)

/-- The function `encode_and_sign_eip1559` (main.rs lines 168-183): sign the typed
transaction, return its wire encoding and its hash (the Keccak-256 of the
signed encoding). -/
def encode_and_sign_eip1559 (wallet : Wallet) (tx : Eip1559Request) :
    Except SignError (List Nat × List Nat) :=
  match wallet tx with
  | .error e => .error e
  | .ok sig => .ok (rlpSigned tx sig, keccak256 (rlpSigned tx sig))

/-- The fixed signature returned by the stub wallet. -/
def stubSig : Signature := { r := 1, s := 1, v := 0 }

/-- A stub wallet for concrete runs: always signs, with the fixed
signature. -/
def stubWallet : Wallet := fun _ => .ok stubSig

/-- A wallet whose every signing attempt fails — an unrecoverable,
systemic signer failure. -/
def failWallet : Wallet := fun _ => .error .failure

/-! ## process_batch (main.rs lines 142-166)

Sequential, interference-free semantics: the `found` flag is threaded as a
`Bool` (no other task writes it during the run; the concurrent claim
protocol is modelled separately below).  Per candidate the worker loads the
flag (line 150), signs (line 154, skipping the candidate on error), renders
and matches the hash (lines 155-156), and on a match computes the total fee
with the panicking `U256` multiplication and claims the win (lines
157-159). -/

/-- The tuple sent over the result channel (main.rs lines 58, 96): the
wire-encoded signed transaction, its 32-byte hash, and the total fee in
wei. -/
structure SearchOutcome where
  signedRlp : List Nat
  txHash : List Nat
  totalFeeWei : Nat
deriving DecidableEq

/-- The function `process_batch` in sequential semantics.  Returns the claimed outcome
(if any) together with the flag value after the batch. -/
def process_batch (wallet : Wallet) (tgt : List Char) (gas_limit : Nat) :
    Bool → List Eip1559Request → Except Panic (Option SearchOutcome × Bool)
  | found, [] => .ok (none, found)
  | found, tx :: rest =>
    if found then .ok (none, found)
    else
      (encode_and_sign_eip1559 wallet tx).toOption.elim
        (process_batch wallet tgt gas_limit found rest)
        fun sh =>
          if matchesTarget tgt sh.2 then
            (mulU256 gas_limit (tx.maxFee.getD 0)).elim (.error .overflow) fun fee =>
              .ok (some { signedRlp := sh.1, txHash := sh.2, totalFeeWei := fee }, true)
          else process_batch wallet tgt gas_limit found rest

/-- A concrete candidate for witness runs: the sample template carrying the
first fee pair worker 0 would generate. -/
def witnessCandidate : Eip1559Request :=
  setFees sampleTemplate (BASE_FEE_START + PRIORITY_FEE)

/-- The outcome the stub wallet yields on `witnessCandidate` with gas limit
21000 and an empty target. -/
def witnessOutcome : SearchOutcome :=
  { signedRlp := rlpSigned witnessCandidate stubSig,
    txHash := keccak256 (rlpSigned witnessCandidate stubSig),
    totalFeeWei := 21000 * (BASE_FEE_START + PRIORITY_FEE) }

/-! ## The claim protocol (the `found: AtomicBool` cancellation flag)

The cancellation flag is the only mutable state shared by the workers.  A
worker that finds a matching candidate executes `found.swap(true,
Ordering::Relaxed)` (process_batch line 157): an atomic read-modify-write
on a single location, so all swaps on it form one total modification
order even at relaxed ordering.  A swap returning `false` publishes the
outcome on the channel (main.rs line 96); a swap returning `true`
discards the match (line 161).  Workers also read the flag without
writing (lines 78 and 150).  A state records the flag and the ids of the
workers whose outcome was sent, in send order. -/

structure ClaimState where
  flag : Bool
  sent : List Nat
deriving DecidableEq

/-- Initial state of a search run: `AtomicBool::new(false)` (main.rs
line 59) and nothing sent. -/
def initClaimState : ClaimState :=
  { flag := false, sent := [] }

/-- The atomic steps of the claim protocol, tagged by worker id. -/
inductive ClaimStep : ClaimState → ClaimState → Prop where
  | claim (i : Nat) (s : ClaimState) (h : s.flag = false) :
      ClaimStep s { flag := true, sent := s.sent ++ [i] }
  | discard (i : Nat) (s : ClaimState) (h : s.flag = true) : ClaimStep s s
  | poll (i : Nat) (s : ClaimState) : ClaimStep s s

/-- States reachable in a search run, under every interleaving. -/
inductive ClaimReachable : ClaimState → Prop where
  | init : ClaimReachable initClaimState
  | step {s s' : ClaimState} :
      ClaimReachable s → ClaimStep s s' → ClaimReachable s'

/-! ## Result channel and orchestrator (main.rs lines 58, 96, 105-137)

tokio mpsc semantics: `recv().await` yields a buffered message if one is
present, returns `None` once every `Sender` clone has been dropped and the
buffer is empty, and otherwise stays pending.  `main` clones the sender
into each worker (line 66) but never drops the original `tx_result`
binding, which is still alive while `rx_result.recv().await` runs
(line 113). -/

/-- Result of one `recv().await` poll. -/
inductive RecvOutcome where
  | received (out : SearchOutcome)
  | closed
  | pending
deriving DecidableEq

/-- tokio `Receiver::recv`, given the buffered messages and the number of
live senders. -/
def mpscRecv (buffer : List SearchOutcome) (liveSenders : Nat) : RecvOutcome :=
  match buffer with
  | out :: _ => .received out
  | [] => if liveSenders = 0 then .closed else .pending

/-- What the orchestrator reports to the user. -/
inductive Report where
  | matchFound (out : SearchOutcome)
  | noSolution
deriving DecidableEq

/-- The orchestrator's final phase (main.rs lines 113-137): after awaiting
worker tasks it blocks on `rx_result.recv()`; a received outcome is
reported as a match and a closed channel as "No solution found
(interrupted?)"; a pending receive never returns, so no report is produced
(`none`: the program hangs).  `workerSenders` counts the worker sender
clones still alive; the `+ 1` is main's own original sender, which the
source never drops. -/
def orchestratorReport (buffer : List SearchOutcome) (workerSenders : Nat) :
    Option Report :=
  match mpscRecv buffer (workerSenders + 1) with
  | .received out => some (.matchFound out)
  | .closed => some .noSolution
  | .pending => none

/-! # Theorems -/

lemma hexDigit_mem {n : Nat} (hn : n < 16) : hexDigit n ∈ lowercaseHexDigits := by
  interval_cases n <;> decide

lemma hexEncode_mem {c : Char} {bytes : List Nat} (hb : ∀ b ∈ bytes, b < 256)
    (hc : c ∈ hexEncode bytes) : c ∈ lowercaseHexDigits := by
  unfold hexEncode at hc
  rw [List.mem_flatMap] at hc
  obtain ⟨b, hbmem, hcb⟩ := hc
  have hb256 : b < 256 := hb b hbmem
  simp only [hexByte, List.mem_cons, List.not_mem_nil, or_false] at hcb
  rcases hcb with h | h
  · exact h ▸ hexDigit_mem (Nat.div_lt_of_lt_mul hb256)
  · exact h ▸ hexDigit_mem (Nat.mod_lt _ (by norm_num))

lemma isPrefixOf_iff_prefixRel {α : Type} [BEq α] [LawfulBEq α] (l1 l2 : List α) :
    l1.isPrefixOf l2 = true ↔ l1 <+: l2 := by
  induction l1 generalizing l2 with
  | nil => simp [List.isPrefixOf]
  | cons a t ih =>
    cases l2 with
    | nil => simp [List.isPrefixOf]
    | cons b t2 =>
      rw [List.isPrefixOf_cons₂, List.cons_prefix_cons, Bool.and_eq_true, beq_iff_eq, ih]

/-- C2: for every signed candidate, the matcher renders the 32-byte hash as
lowercase hexadecimal prefixed with the fixed marker `"0x"` and accepts the
candidate if and only if that rendered string starts with the user-supplied
lowercased target string; the comparison has no false positives and no false
negatives with respect to this rendering. -/
theorem matcher_accepts_iff_rendered_hex_starts_with_target
    (tgt : List Char) (h : List Nat)
    (hb : ∀ b ∈ h, b < 256) (_hlen : h.length = 32) :
    (matchesTarget tgt h = true ↔ tgt <+: txHashHex h) ∧
      ∀ c ∈ hexEncode h, c ∈ lowercaseHexDigits := by
  constructor
  · exact isPrefixOf_iff_prefixRel tgt (txHashHex h)
  · exact fun c hc => hexEncode_mem hb hc

theorem matcher_accepts_iff_rendered_hex_starts_with_target_witness :
    (∀ b ∈ List.replicate 32 0, b < 256) ∧ (List.replicate 32 0).length = 32 ∧
      ((matchesTarget ['0', 'x'] (List.replicate 32 0) = true ↔
          ['0', 'x'] <+: txHashHex (List.replicate 32 0)) ∧
        ∀ c ∈ hexEncode (List.replicate 32 0), c ∈ lowercaseHexDigits) :=
  ⟨by decide, by decide,
    matcher_accepts_iff_rendered_hex_starts_with_target ['0', 'x']
      (List.replicate 32 0) (by decide) (by decide)⟩

/-- C10: because the matcher prepends the two characters `"0x"` to the hex
rendering before the starts-with test, a target accepted for some candidate
must itself extend the marker: a length-1 target must be `['0']`, a target of
length at least 2 must begin with `['0', 'x']`, and in particular the targets
`"ab"` and `"00"` match no hash at all. -/
theorem target_must_extend_marker (tgt : List Char) (h : List Nat) :
    (matchesTarget tgt h = true →
        (tgt.length = 1 → tgt = ['0']) ∧ (2 ≤ tgt.length → tgt.take 2 = ['0', 'x'])) ∧
      matchesTarget ['a', 'b'] h = false ∧ matchesTarget ['0', '0'] h = false := by
  refine ⟨fun hm => ?_, ?_, ?_⟩
  · rw [matchesTarget, isPrefixOf_iff_prefixRel] at hm
    constructor
    · intro hl
      match tgt, hl with
      | [c], _ =>
        rw [txHashHex, List.cons_prefix_cons] at hm
        rw [hm.1]
    · intro hl
      match tgt, hl with
      | c1 :: c2 :: rest, _ =>
        rw [txHashHex, List.cons_prefix_cons, List.cons_prefix_cons] at hm
        simp [hm.1, hm.2.1]
  · have ha0 : (('a' : Char) == '0') = false := by decide
    rw [matchesTarget, txHashHex, List.isPrefixOf_cons₂, ha0]
    simp
  · have h0x : (('0' : Char) == 'x') = false := by decide
    rw [matchesTarget, txHashHex, List.isPrefixOf_cons₂, List.isPrefixOf_cons₂, h0x]
    simp

theorem target_must_extend_marker_witness :
    (matchesTarget ['0', 'x'] (List.replicate 32 0) = true →
        ((['0', 'x'] : List Char).length = 1 → ['0', 'x'] = ['0']) ∧
          (2 ≤ (['0', 'x'] : List Char).length →
            (['0', 'x'] : List Char).take 2 = ['0', 'x'])) ∧
      matchesTarget ['a', 'b'] (List.replicate 32 0) = false ∧
        matchesTarget ['0', '0'] (List.replicate 32 0) = false :=
  target_must_extend_marker ['0', 'x'] (List.replicate 32 0)

lemma satAdd_one_iterate (k : Nat) :
    ∀ c : Nat, c + k ≤ U256MAX → (fun c => satAddU256 c 1)^[k] c = c + k := by
  induction k with
  | zero => intro c _; simp
  | succ k ih =>
    intro c hc
    rw [Function.iterate_succ_apply]
    have h1 : satAddU256 c 1 = c + 1 := by
      unfold satAddU256
      omega
    rw [h1, ih (c + 1) (by omega)]
    omega

/-- C3: for every worker index `i` (0-based), the worker's starting base-fee
offset equals `i × THREAD_OFFSET_SPACING` added to the common base-fee start;
consequently any two distinct workers that each test fewer than
`THREAD_OFFSET_SPACING` fee values test pairwise-disjoint sets of base-fee
values, and never sign an identical fee pair. -/
theorem worker_fee_ranges_disjoint (n i j ki kj : Nat)
    (hi : i < threadCount n) (hj : j < threadCount n) (hij : i ≠ j)
    (hki : ki < THREAD_OFFSET_SPACING) (hkj : kj < THREAD_OFFSET_SPACING) :
    workerStart i = BASE_FEE_START + i * THREAD_OFFSET_SPACING ∧
      workerBaseFee i ki ≠ workerBaseFee j kj ∧
      feePair (workerBaseFee i ki) ≠ feePair (workerBaseFee j kj) := by
  have hi8 : i < 8 := lt_of_lt_of_le hi (min_le_right _ _)
  have hj8 : j < 8 := lt_of_lt_of_le hj (min_le_right _ _)
  have hoffs : ∀ m : Nat, m < 8 →
      workerStart m = BASE_FEE_START + m * THREAD_OFFSET_SPACING := by
    intro m hm
    unfold workerStart base_fee_offset U64MOD THREAD_OFFSET_SPACING
    rw [Nat.mod_eq_of_lt (by omega)]
  have hfee : ∀ m k : Nat, m < 8 → k < THREAD_OFFSET_SPACING →
      workerBaseFee m k = BASE_FEE_START + m * THREAD_OFFSET_SPACING + k := by
    intro m k hm hk
    unfold workerBaseFee
    rw [hoffs m hm]
    refine satAdd_one_iterate k _ ?_
    unfold BASE_FEE_START THREAD_OFFSET_SPACING at hk ⊢
    unfold U256MAX U256MOD
    have : m * 100000000 ≤ 700000000 := by omega
    omega
  have hne : workerBaseFee i ki ≠ workerBaseFee j kj := by
    rw [hfee i ki hi8 hki, hfee j kj hj8 hkj]
    unfold THREAD_OFFSET_SPACING at hki hkj
    unfold THREAD_OFFSET_SPACING
    omega
  refine ⟨hoffs i hi8, hne, ?_⟩
  intro hpair
  exact hne (by
    have := congrArg Prod.fst hpair
    unfold feePair at this
    simpa using this)

theorem worker_fee_ranges_disjoint_witness :
    0 < threadCount 8 ∧ 1 < threadCount 8 ∧ (0 : Nat) ≠ 1 ∧
      0 < THREAD_OFFSET_SPACING ∧
      (workerStart 0 = BASE_FEE_START + 0 * THREAD_OFFSET_SPACING ∧
        workerBaseFee 0 0 ≠ workerBaseFee 1 0 ∧
        feePair (workerBaseFee 0 0) ≠ feePair (workerBaseFee 1 0)) :=
  ⟨by decide, by decide, by decide, by decide,
    worker_fee_ranges_disjoint 8 0 1 0 0 (by decide) (by decide) (by decide)
      (by decide) (by decide)⟩

lemma genBatchAux_zero (tmpl : Eip1559Request) (c : Nat) (acc : List Eip1559Request) :
    genBatchAux tmpl 0 c acc = .ok (acc.reverse, c) := rfl

lemma genBatchAux_succ (tmpl : Eip1559Request) (fuel c : Nat)
    (acc : List Eip1559Request) :
    genBatchAux tmpl (fuel + 1) c acc =
      (addU256 c PRIORITY_FEE).elim (.error .overflow) (fun mf =>
        genBatchAux tmpl fuel (satAddU256 c 1) (setFees tmpl mf :: acc)) := rfl

lemma genBatchAux_ok (tmpl : Eip1559Request) :
    ∀ (fuel c : Nat) (acc : List Eip1559Request),
      c + fuel + PRIORITY_FEE ≤ U256MOD →
      genBatchAux tmpl fuel c acc =
        .ok (acc.reverse ++
              (List.range fuel).map (fun k => setFees tmpl (c + k + PRIORITY_FEE)),
            c + fuel) := by
  intro fuel
  induction fuel with
  | zero => intro c acc _; rw [genBatchAux_zero]; simp
  | succ fuel ih =>
    intro c acc hc
    have hadd : addU256 c PRIORITY_FEE = some (c + PRIORITY_FEE) := by
      unfold addU256
      rw [if_pos (by omega)]
    have hsat : satAddU256 c 1 = c + 1 := by
      unfold satAddU256 U256MAX
      unfold PRIORITY_FEE at hc
      unfold U256MOD at hc ⊢
      omega
    rw [genBatchAux_succ, hadd, Option.elim_some, hsat,
      ih (c + 1) (setFees tmpl (c + PRIORITY_FEE) :: acc) (by omega)]
    have hmap : (List.range (fuel + 1)).map (fun k => setFees tmpl (c + k + PRIORITY_FEE))
        = setFees tmpl (c + PRIORITY_FEE) ::
            (List.range fuel).map (fun k => setFees tmpl (c + 1 + k + PRIORITY_FEE)) := by
      rw [List.range_succ_eq_map, List.map_cons, List.map_map]
      refine congrArg₂ List.cons (by norm_num) (List.map_congr_left fun k _ => ?_)
      have hk : c + Nat.succ k + PRIORITY_FEE = c + 1 + k + PRIORITY_FEE := by omega
      simp only [Function.comp_apply, hk]
    rw [hmap, List.reverse_cons, List.append_assoc, List.singleton_append]
    have harr : c + 1 + fuel = c + (fuel + 1) := by omega
    rw [harr]

/-- C4 (amended): for every cursor value `c` such that the batch's checked
fee additions cannot overflow (`c + BATCH_SIZE + PRIORITY_FEE ≤ 2^256`), one
batch-generation step produces exactly `BATCH_SIZE` candidates whose base-fee
values are the strictly increasing consecutive values `c, c+1, …,
c+BATCH_SIZE-1` (the `k`-th candidate carries `max_fee_per_gas =
(c+k) + PRIORITY_FEE` and `max_priority_fee_per_gas = PRIORITY_FEE`), and
leaves the cursor at `c + BATCH_SIZE`; no value is reordered or skipped. -/
theorem batch_generation_consecutive (tmpl : Eip1559Request) (c : Nat)
    (h : c + BATCH_SIZE + PRIORITY_FEE ≤ U256MOD) :
    genBatch tmpl c =
      .ok ((List.range BATCH_SIZE).map (fun k => setFees tmpl (c + k + PRIORITY_FEE)),
        c + BATCH_SIZE) := by
  unfold genBatch
  rw [genBatchAux_ok tmpl BATCH_SIZE c [] h]
  simp

theorem batch_generation_consecutive_witness :
    BASE_FEE_START + BATCH_SIZE + PRIORITY_FEE ≤ U256MOD ∧
      genBatch sampleTemplate BASE_FEE_START =
        .ok ((List.range BATCH_SIZE).map
              (fun k => setFees sampleTemplate (BASE_FEE_START + k + PRIORITY_FEE)),
          BASE_FEE_START + BATCH_SIZE) :=
  ⟨by decide, batch_generation_consecutive sampleTemplate BASE_FEE_START (by decide)⟩

/-- C4 (counterexample): at cursor value `2^256 - 1` the batch-generation
step panics on the checked fee addition instead of producing a batch of
`BATCH_SIZE` candidates with strictly increasing base fees. -/
theorem batch_generation_cex :
    genBatch sampleTemplate (U256MOD - 1) = .error .overflow := by
  rfl

lemma keccak256_length (msg : List Nat) : (keccak256 msg).length = 32 := by
  unfold keccak256 laneToBytes
  simp only [List.length_flatMap, Function.comp, List.length_map, List.length_range]
  rfl

/-- C9: the contract address predictor is a pure deterministic function of
the sender and nonce: it equals, for all inputs, the standard RLP encoding
of the two-element list (sender, nonce) hashed with Keccak-256 keeping the
low-order 20 bytes of the 32-byte digest, and it reproduces the canonical
cross-implementation reference vector. -/
theorem get_contract_address_correct :
    (∀ (sender : List Nat) (nonce : Nat),
        get_contract_address sender nonce = contractAddressSpec sender nonce ∧
          (get_contract_address sender nonce).length = 20) ∧
      get_contract_address referenceSender 0 =
        [0xcd, 0x23, 0x4a, 0x47, 0x1b, 0x72, 0xba, 0x2f, 0x1c, 0xcf,
         0x0a, 0x70, 0xfc, 0xab, 0xa6, 0x48, 0xa5, 0xee, 0xcd, 0x8d] := by
  constructor
  · intro sender nonce
    constructor
    · unfold get_contract_address contractAddressSpec rlpEncodeList
      unfold RlpStream.out RlpStream.appendU256 RlpStream.appendAddress RlpStream.new_list
      simp
    · unfold get_contract_address
      simp [keccak256_length]
  · set_option maxRecDepth 100000 in decide

/-- C7: signing is deterministic: for a fixed wallet (signing key) and
fixed transaction request (template plus fee candidate), any two
invocations of encode_and_sign_eip1559 yield identical outputs, and a
successful output is exactly the wire-encoded signed bytes together with
their Keccak-256 hash. -/
theorem signing_deterministic (wallet : Wallet) (tx tx' : Eip1559Request)
    (h : tx = tx') :
    encode_and_sign_eip1559 wallet tx = encode_and_sign_eip1559 wallet tx' ∧
      ∀ sig, wallet tx = .ok sig →
        encode_and_sign_eip1559 wallet tx =
          .ok (rlpSigned tx sig, keccak256 (rlpSigned tx sig)) := by
  subst h
  refine ⟨rfl, fun sig hsig => ?_⟩
  unfold encode_and_sign_eip1559
  rw [hsig]

theorem signing_deterministic_witness :
    witnessCandidate = witnessCandidate ∧
      (encode_and_sign_eip1559 stubWallet witnessCandidate =
          encode_and_sign_eip1559 stubWallet witnessCandidate ∧
        ∀ sig, stubWallet witnessCandidate = .ok sig →
          encode_and_sign_eip1559 stubWallet witnessCandidate =
            .ok (rlpSigned witnessCandidate sig,
              keccak256 (rlpSigned witnessCandidate sig))) :=
  ⟨rfl, signing_deterministic stubWallet witnessCandidate witnessCandidate rfl⟩

lemma process_batch_nil (w : Wallet) (t : List Char) (g : Nat) (f : Bool) :
    process_batch w t g f [] = .ok (none, f) := rfl

lemma process_batch_cons (w : Wallet) (t : List Char) (g : Nat) (f : Bool)
    (tx : Eip1559Request) (rest : List Eip1559Request) :
    process_batch w t g f (tx :: rest) =
      if f then .ok (none, f)
      else
        (encode_and_sign_eip1559 w tx).toOption.elim (process_batch w t g f rest)
          fun sh =>
            if matchesTarget t sh.2 then
              (mulU256 g (tx.maxFee.getD 0)).elim (.error .overflow) fun fee =>
                .ok (some { signedRlp := sh.1, txHash := sh.2, totalFeeWei := fee }, true)
            else process_batch w t g f rest := rfl

lemma except_toOption_eq_some {ε α : Type} {e : Except ε α} {a : α}
    (h : e.toOption = some a) : e = .ok a := by
  cases e with
  | ok b =>
    have : b = a := by simpa [Except.toOption] using h
    rw [this]
  | error _ => simp [Except.toOption] at h

/-- C6 (amended): when signing one candidate fails — with any error, be it
per-candidate or systemic — the worker skips that candidate and continues
the search with the rest of the batch; no signing error is propagated
upward and none terminates the worker. -/
theorem signing_error_skips_candidate (w : Wallet) (t : List Char) (g : Nat)
    (tx : Eip1559Request) (rest : List Eip1559Request) (e : SignError)
    (h : encode_and_sign_eip1559 w tx = .error e) :
    process_batch w t g false (tx :: rest) = process_batch w t g false rest := by
  rw [process_batch_cons, h]
  simp [Except.toOption]

theorem signing_error_skips_candidate_witness :
    encode_and_sign_eip1559 failWallet witnessCandidate = .error .failure ∧
      process_batch failWallet [] 21000 false [witnessCandidate] =
        process_batch failWallet [] 21000 false [] :=
  ⟨rfl, signing_error_skips_candidate failWallet [] 21000 witnessCandidate []
    .failure rfl⟩

/-- C6 (counterexample): a wallet whose every signing attempt fails — an
unrecoverable key failure, the systemic case — does not make the worker
terminate or report: process_batch finishes the batch normally with no
outcome and no error, so the worker's while-loop simply continues. -/
theorem systemic_error_not_reported_cex :
    process_batch failWallet [] 21000 false [witnessCandidate] = .ok (none, false) ∧
      process_batch failWallet [] 21000 false [witnessCandidate] ≠
        .error Panic.overflow := by
  refine ⟨rfl, ?_⟩
  intro hc
  have hok : process_batch failWallet [] 21000 false [witnessCandidate] =
      .ok (none, false) := rfl
  rw [hok] at hc
  exact Except.noConfusion hc

/-- C8: whenever process_batch publishes an outcome, that outcome's total
fee equals the gas limit multiplied by the winning candidate's
max-fee-per-gas (in wei, the chain's smallest unit), and its hash is that
candidate's matched hash. -/
theorem outcome_fee_is_gas_times_max_fee (w : Wallet) (t : List Char)
    (g : Nat) (f : Bool) (batch : List Eip1559Request) (out : SearchOutcome)
    (fl : Bool)
    (h : process_batch w t g f batch = .ok (some out, fl)) :
    ∃ tx ∈ batch,
      encode_and_sign_eip1559 w tx = .ok (out.signedRlp, out.txHash) ∧
        matchesTarget t out.txHash = true ∧
        out.totalFeeWei = g * (tx.maxFee.getD 0) := by
  induction batch with
  | nil =>
    rw [process_batch_nil] at h
    cases h
  | cons tx rest ih =>
    rw [process_batch_cons] at h
    by_cases hf : f
    · rw [if_pos hf] at h
      cases h
    · rw [if_neg hf] at h
      cases hE : (encode_and_sign_eip1559 w tx).toOption with
      | none =>
        rw [hE, Option.elim_none] at h
        obtain ⟨tx', htx', hrest⟩ := ih h
        exact ⟨tx', List.mem_cons_of_mem tx htx', hrest⟩
      | some sh =>
        rw [hE, Option.elim_some] at h
        by_cases hm : matchesTarget t sh.2 = true
        · rw [if_pos hm] at h
          cases hM : mulU256 g (tx.maxFee.getD 0) with
          | none =>
            rw [hM, Option.elim_none] at h
            cases h
          | some fee =>
            rw [hM, Option.elim_some] at h
            injection h with h1
            injection h1 with hfst hsnd
            injection hfst with hout
            refine ⟨tx, List.mem_cons_self tx rest, ?_, ?_, ?_⟩
            · rw [← hout]
              exact except_toOption_eq_some hE
            · rw [← hout]
              exact hm
            · have hfee : fee = g * (tx.maxFee.getD 0) := by
                unfold mulU256 at hM
                by_cases hlt : g * (tx.maxFee.getD 0) < U256MOD
                · rw [if_pos hlt] at hM
                  exact (Option.some_injective _ hM).symm
                · rw [if_neg hlt] at hM
                  cases hM
              rw [← hout]
              exact hfee
        · rw [if_neg hm] at h
          obtain ⟨tx', htx', hrest⟩ := ih h
          exact ⟨tx', List.mem_cons_of_mem tx htx', hrest⟩

theorem outcome_fee_is_gas_times_max_fee_witness :
    process_batch stubWallet [] 21000 false [witnessCandidate] =
        .ok (some witnessOutcome, true) ∧
      ∃ tx ∈ [witnessCandidate],
        encode_and_sign_eip1559 stubWallet tx =
            .ok (witnessOutcome.signedRlp, witnessOutcome.txHash) ∧
          matchesTarget [] witnessOutcome.txHash = true ∧
          witnessOutcome.totalFeeWei = 21000 * (tx.maxFee.getD 0) :=
  ⟨rfl, outcome_fee_is_gas_times_max_fee stubWallet [] 21000 false
    [witnessCandidate] witnessOutcome true rfl⟩

lemma claimState_invariant (s : ClaimState) (hr : ClaimReachable s) :
    s.sent.length ≤ 1 ∧ (s.flag = false → s.sent = []) := by
  induction hr with
  | init => exact ⟨by simp [initClaimState], fun _ => rfl⟩
  | step hr hstep ih =>
    cases hstep with
    | claim i s h =>
      rw [ih.2 h]
      exact ⟨by simp, by simp⟩
    | discard i s h => exact ih
    | poll i s => exact ih

/-- C1: for every search run the cancellation flag starts false; in every
reachable state, under every interleaving, at most one outcome has been
sent, an outcome is sent only once the flag has been set by its sender's
successful swap, and any step taken from a state whose flag is already set
leaves the flag set and sends nothing — so at most one result is ever
published, by the single worker whose atomic test-and-set observed false,
and every other worker that also found a match discards it silently. -/
theorem at_most_one_winner (s s' : ClaimState)
    (hr : ClaimReachable s) (hstep : ClaimStep s s') :
    initClaimState.flag = false ∧
      s.sent.length ≤ 1 ∧ (s.flag = false → s.sent = []) ∧
      (s.flag = true → s'.flag = true ∧ s'.sent = s.sent) ∧
      s'.sent.length ≤ 1 := by
  obtain ⟨h1, h2⟩ := claimState_invariant s hr
  refine ⟨rfl, h1, h2, ?_, ?_⟩
  · intro hf
    cases hstep with
    | claim i s h =>
      rw [h] at hf
      cases hf
    | discard i s h => exact ⟨hf, rfl⟩
    | poll i s => exact ⟨hf, rfl⟩
  · cases hstep with
    | claim i s h =>
      have hs : s.sent = [] := h2 h
      simp [hs]
    | discard i s h => exact h1
    | poll i s => exact h1

theorem at_most_one_winner_witness :
    initClaimState.flag = false ∧
      ({ flag := true, sent := [0] } : ClaimState).sent.length ≤ 1 ∧
      (({ flag := true, sent := [0] } : ClaimState).flag = false →
        ({ flag := true, sent := [0] } : ClaimState).sent = []) ∧
      (({ flag := true, sent := [0] } : ClaimState).flag = true →
        ({ flag := true, sent := [0] } : ClaimState).flag = true ∧
          ({ flag := true, sent := [0] } : ClaimState).sent =
            ({ flag := true, sent := [0] } : ClaimState).sent) ∧
      ({ flag := true, sent := [0] } : ClaimState).sent.length ≤ 1 :=
  at_most_one_winner { flag := true, sent := [0] } { flag := true, sent := [0] }
    (ClaimReachable.step ClaimReachable.init
      (ClaimStep.claim 0 initClaimState rfl))
    (ClaimStep.discard 1 { flag := true, sent := [0] } rfl)

/-- C5 (code behavior at the failing input): when every worker task has
terminated without publishing a result — worker sender clones all dropped,
channel buffer empty — the orchestrator's receive stays pending forever
because main's own original sender is still alive, so no report at all, in
particular not the "No solution found" report, is ever produced: the
program hangs instead of reporting "not found". -/
theorem exhausted_search_hangs :
    orchestratorReport [] 0 = none ∧
      mpscRecv [] (0 + 1) = RecvOutcome.pending ∧
      orchestratorReport [] 0 ≠ some Report.noSolution := by
  refine ⟨rfl, rfl, ?_⟩
  decide

end VanityTx
